import Mathlib

/-!
Verification development for the duvis record parser and tree-reconstruction
engine. The C sources (duvis.c and its earlier revision) are embedded
shallowly: C strings become lists of byte values (Nat), the global entries
array becomes an explicit state value, uint32 wrap-around is made explicit
where the C arithmetic can wrap, fatal diagnostics (exit(1), failing
asserts) become Except errors, and writes past the end of the entries array
(C undefined behaviour) are recorded in a flag while leaving the in-bounds
entries unchanged.
-/

namespace Duvis

/-- Byte predicate for the C isdigit test in the parser (ASCII 48..57). -/
def isDigitB (b : Nat) : Bool := 48 ≤ b && b ≤ 57

/-- Numeric value of a digit run, as sscanf with the u64 format reads it. -/
def natOfDigits (ds : List Nat) : Nat :=
  ds.foldl (fun acc d => acc * 10 + (d - 48)) 0

/-- C strcmp on NUL-terminated byte strings. Component strings produced by
the parser never contain a zero byte, so exhausting one list corresponds to
reaching the terminator: the shorter string compares below the longer one.
Only the sign of the result is meaningful, as in C. -/
def strcmpB : List Nat → List Nat → Int
  | [], [] => 0
  | [], b :: _ => 0 - (b : Int)
  | a :: _, [] => (a : Int)
  | a :: s, b :: t => if a = b then strcmpB s t else (a : Int) - (b : Int)

/-- One parsed input record: the size field and the slash-separated path
components, in order. The C struct stores n_components separately but it
always equals the length of the component array. -/
structure EntryRec where
  size : Nat
  components : List (List Nat)
deriving DecidableEq

instance : Inhabited EntryRec := ⟨⟨0, []⟩⟩

/-- Path splitting as performed by the parser loop (duvis.c lines 116-132):
components[0] starts right after the separator byte and each slash ends the
current component and starts the next, so an empty path gives one empty
component and a trailing slash gives a trailing empty component. -/
def splitSlash : List Nat → List (List Nat)
  | [] => [[]]
  | b :: rest =>
    if b = 47 then [] :: splitSlash rest
    else
      match splitSlash rest with
      | [] => [[b]]
      | c :: cs => (b :: c) :: cs

/-- Fatal parser diagnostics. The size parse of duvis.c line 96 cannot fail
once the digit-run check has passed, so it has no error case here; the
modelFuel case marks exhaustion of the model recursion budget, which no
terminating run of the C code exhibits. -/
inductive PErr where
  | formatError (line : Nat)
  | overrun (line : Nat)
  | assertComponentsMax (line : Nat)
  | modelFuel
deriving DecidableEq

instance {ε α : Type} [DecidableEq ε] [DecidableEq α] : DecidableEq (Except ε α) := fun a b =>
  match a, b with
  | .error x, .error y =>
    match decEq x y with
    | isTrue h => isTrue (by rw [h])
    | isFalse h => isFalse (by intro hc; cases hc; exact h rfl)
  | .error _, .ok _ => isFalse (by intro hc; cases hc)
  | .ok _, .error _ => isFalse (by intro hc; cases hc)
  | .ok x, .ok y =>
    match decEq x y with
    | isTrue h => isTrue (by rw [h])
    | isFalse h => isFalse (by intro hc; cases hc; exact h rfl)

/-- Parse of one line buffer (duvis.c lines 83-142, identical in the older
revision): scan the leading digit run; an empty run, or a next byte that is
neither space nor tab, is the fatal format error carrying the 1-based line
number. Otherwise the digit run is the size (a 64-bit quantity) and the
rest of the buffer up to a newline byte or the end is split on slashes.
The assert on DU_COMPONENTS_MAX (4096) fires when the component count
reaches that bound during the scan. A NUL byte inside a line, which the C
scan would treat as its terminator, is not modelled: no settled claim
feeds one. -/
def parseLine (buf : List Nat) (ln : Nat) : Except PErr EntryRec :=
  let ds := buf.takeWhile isDigitB
  let rest := buf.drop ds.length
  if ds = [] ∨ ¬ (rest.head? = some 32 ∨ rest.head? = some 9) then
    .error (.formatError ln)
  else
    let size := natOfDigits ds % 2 ^ 64
    let pathBytes := (rest.drop 1).takeWhile (fun b => b ≠ 10)
    let comps := splitSlash pathBytes
    if 4096 ≤ comps.length then .error (.assertComponentsMax ln)
    else .ok ⟨size, comps⟩

/-- Line buffer length. duvis.c takes DU_BUFFER_LENGTH from the missing
header duvis.h; the older revision computes 17 + 1 + (2 + DU_PATH_MAX) + 1
with DU_PATH_MAX = 4096, and the spec describes the same fixed bound, so
that value is used for both variants. -/
def duBufferLength : Nat := 17 + 1 + (2 + 4096) + 1

/-- Modelled from the spec: path_get of the missing pathmem.c, used by
duvis.c read_entries. It delivers one whole input line with the trailing
newline stripped; a line that exceeds the fixed maximum buffer length is
reported by the overrun result (the -1 return checked at duvis.c line 50)
with the buffer holding the truncated content. The Bool is the overrun
indicator. -/
def pathGet (l : List Nat) : Bool × List Nat :=
  if duBufferLength - 2 < l.length then (true, l.take (duBufferLength - 1))
  else (false, l)

/-- Loop of duvis.c read_entries (lines 31-145). A path_get overrun result
only prints a report naming the current line and execution falls through:
the truncated buffer is parsed into a record like any other line. The
returned list of line numbers records those non-fatal overrun reports;
records come back in input order. A format error is fatal. -/
def readV1Go : List (List Nat) → Nat → List Nat → List EntryRec →
    Except PErr (List Nat × List EntryRec)
  | [], _, warns, acc => .ok (warns, acc)
  | l :: rest, ln, warns, acc =>
    let r := pathGet l
    let warns' := if r.1 then warns ++ [ln + 1] else warns
    match parseLine r.2 (ln + 1) with
    | .error e => .error e
    | .ok entry => readV1Go rest (ln + 1) warns' (acc ++ [entry])

/-- duvis.c read_entries over a list of input lines (newlines stripped). -/
def readV1 (lines : List (List Nat)) : Except PErr (List Nat × List EntryRec) :=
  readV1Go lines 0 [] []

/-- fgets model for the older revision: read at most n bytes from the
stream, stopping after the first newline byte; the newline stays in the
chunk. Returns the chunk and the remaining stream. -/
def takeLine : Nat → List Nat → List Nat × List Nat
  | 0, s => ([], s)
  | _ + 1, [] => ([], [])
  | k + 1, b :: s =>
    if b = 10 then ([10], s)
    else
      let r := takeLine k s
      (b :: r.1, r.2)

/-- Value of the last buffer cell after an fgets read in the older
revision's read_entries. The cell is pre-set to NUL (line 66); fgets stores
at most du_buffer_length - 1 content bytes and always writes a NUL
terminator right after them, so the last cell holds either that terminator
(full read) or the untouched pre-set NUL. -/
def bufferLastCell (chunk : List Nat) : Nat :=
  if h : duBufferLength - 1 < chunk.length then chunk.get ⟨duBufferLength - 1, h⟩ else 0

/-- read_entries of the older revision (part_000 lines 49-167), over the
raw input byte stream, because its fgets reads resume inside a line that
did not fit the buffer. The sentinel overrun check of lines 83-88 tests
the last buffer cell against NUL. Each fgets consumes at least one byte
of a nonempty stream, so the fuel handed over by readV0 always covers the
whole run. -/
def readV0Go : Nat → List Nat → Nat → List EntryRec → Except PErr (List EntryRec)
  | 0, _, _, _ => .error .modelFuel
  | fuel + 1, stream, ln, acc =>
    if stream = [] then .ok acc
    else
      let r := takeLine (duBufferLength - 1) stream
      if bufferLastCell r.1 ≠ 0 then .error (.overrun (ln + 1))
      else
        match parseLine r.1 (ln + 1) with
        | .error e => .error e
        | .ok entry => readV0Go fuel r.2 (ln + 1) (acc ++ [entry])

/-- The older revision's read_entries on a byte stream. -/
def readV0 (stream : List Nat) : Except PErr (List EntryRec) :=
  readV0Go (stream.length + 1) stream 0 []

/-- Loop of compare_entries (duvis.c lines 152-168): walk the indices both
records possess, returning the first nonzero strcmp of corresponding
components; when that exhausts one record, order by component count; two
fully identical component sequences reach assert(0), modelled as none.
The first argument counts the indices still shared by both records, so it
is min of the two lengths minus i; the loop guard i < n1 and i < n2 holds
exactly while it is positive. -/
def ceLoop (c1 c2 : List (List Nat)) : Nat → Nat → Option Int
  | 0, _ =>
    if c1.length ≠ c2.length then some ((c1.length : Int) - (c2.length : Int))
    else none
  | rem + 1, i =>
    let q := strcmpB (c1.getD i []) (c2.getD i [])
    if q ≠ 0 then some q else ceLoop c1 c2 rem (i + 1)

/-- compare_entries, the Lexicographic Comparator of the spec. -/
def compareEntries (e1 e2 : EntryRec) : Option Int :=
  ceLoop e1.components e2.components (min e1.components.length e2.components.length) 0

/-- qsort comparator wrapper used to model the entry sort. compare_entries
aborts on two fully identical component sequences (duplicate paths); for
the sort model that case is totalised as already-in-order, which no settled
claim exercises. -/
def entriesLe (e1 e2 : EntryRec) : Bool :=
  match compareEntries e1 e2 with
  | some q => decide (q ≤ 0)
  | none => true

/-- Insertion into a sorted list, for the qsort model. -/
def insertBy (le : α → α → Bool) (a : α) : List α → List α
  | [] => [a]
  | b :: t => if le a b then a :: b :: t else b :: insertBy le a t

/-- Model of a C qsort call: a comparison sort driven by the (totalised)
comparator. qsort leaves the relative order of comparator ties
unspecified; every input a settled claim sorts has pairwise comparator-
distinguishable elements, so any correct comparison sort produces the
order the C program displays. -/
def sortBy (le : α → α → Bool) : List α → List α
  | [] => []
  | a :: t => insertBy le a (sortBy le t)

/-- One element of the global entries array during tree construction. The
C depth field is uninitialised until a builder writes it, modelled by an
Option that starts as none; children holds array indices in order. -/
structure NodeEntry where
  size : Nat
  components : List (List Nat)
  depth : Option Nat := none
  nChildren : Nat := 0
  children : List Nat := []
deriving DecidableEq

instance : Inhabited NodeEntry := ⟨⟨0, [], none, 0, []⟩⟩

/-- The entries array plus two model flags: ub records a write past the
end of the array (C undefined behaviour: the write corrupts unowned memory
and no in-bounds entry changes), outOfFuel marks exhaustion of the model
recursion budget, which no terminating run of the C code exhibits. -/
structure BuildState where
  entries : List NodeEntry
  ub : Bool := false
  outOfFuel : Bool := false
deriving DecidableEq

/-- Read of entries[i]. An out-of-bounds read in the C code returns
unowned memory; the model returns the default entry, and every settled
claim is checked on runs whose reads stay in bounds. -/
def getE (s : BuildState) (i : Nat) : NodeEntry := s.entries.getD i default

/-- Write of entries[i], recording an out-of-bounds write in the ub flag. -/
def setE (s : BuildState) (i : Nat) (f : NodeEntry → NodeEntry) : BuildState :=
  if i < s.entries.length then { s with entries := s.entries.set i (f (getE s i)) }
  else { s with ub := true }

def compCount (s : BuildState) (i : Nat) : Nat := (getE s i).components.length

def compAt (s : BuildState) (i k : Nat) : List Nat := (getE s i).components.getD k []

/-- Modulus of the uint32 arithmetic used in the builders. -/
def U32 : Nat := 2 ^ 32

/-- uint32 subtraction with wrap-around. -/
def u32sub (a b : Nat) : Nat := (a % U32 + (U32 - b % U32)) % U32

/-- compare_sizes (duvis.c lines 171-177), on uint32 parameter values. -/
def compareSizes (a b : Nat) : Int := if a < b then -1 else if b < a then 1 else 0

/-- compare_subtrees (duvis.c lines 184-204), the Sibling Comparator. The
entry size field is uint64_t but is assigned to an int local and passed
through the uint32_t parameters of compare_sizes, so only the low 32 bits
of the sizes take part; the call compare_sizes(s2, s1) makes the order
descending. The label compared is components[depth + base_depth - 1]. The
two asserts (equal depths, a full tie) are modelled as none. -/
def compareSubtrees (bd : Nat) (s : BuildState) (i1 i2 : Nat) : Option Int :=
  let e1 := getE s i1
  let e2 := getE s i2
  let q := compareSizes (e2.size % U32) (e1.size % U32)
  if q ≠ 0 then some q
  else if e1.depth ≠ e2.depth then none
  else
    let k := u32sub (e1.depth.getD 0 + bd) 1
    let q2 := strcmpB (e1.components.getD k []) (e2.components.getD k [])
    if q2 ≠ 0 then some q2 else none

/-- qsort comparator wrapper for the children sort; the assert cases are
totalised as already-in-order, which no settled claim exercises. -/
def subtreeLe (bd : Nat) (s : BuildState) (i1 i2 : Nat) : Bool :=
  match compareSubtrees bd s i1 i2 with
  | some q => decide (q ≤ 0)
  | none => true

/-- Inner scan of duvis.c build_tree_postorder (lines 230-236): advance j
while entries[j].n_components is below the uint32 offset and the offset
components of entries[i] and entries[j] compare equal, bumping the
n_children of each entry passed over. The first Nat argument counts the
slots left before end, so it is end - j; the guard j < end holds exactly
while it is positive. -/
def postScan (i offset : Nat) : Nat → BuildState → Nat → BuildState × Nat
  | 0, s, j => (s, j)
  | rem + 1, s, j =>
    if compCount s j < offset ∧ strcmpB (compAt s i offset) (compAt s j offset) = 0 then
      postScan i offset rem (setE s j (fun e => { e with nChildren := e.nChildren + 1 })) (j + 1)
    else (s, j)

/-- Fill loop of duvis.c build_tree_postorder (lines 246-249): append to
entries[j].children each k in [i, j) whose component count equals
offset + 2 in uint32 arithmetic. The first Nat argument counts the slots
left, so it is j - k. -/
def postFill (offset j : Nat) : Nat → BuildState → Nat → BuildState
  | 0, s, _ => s
  | rem + 1, s, k =>
    let s' := if compCount s k = (offset + 2) % U32 then
        setE s j (fun e => { e with children := e.children ++ [k] }) else s
    postFill offset j rem s' (k + 1)

/-- Outer while loop of duvis.c build_tree_postorder (lines 222-255):
offset is entries[i].n_components - 2 in uint32 arithmetic, a found
subtree is rebuilt recursively over [i+1, j) (the recursive
build_tree_postorder call is inlined here: it writes depth and a zero
n_children into its start entry and re-enters this loop), then
entries[j].children is allocated and filled from [i, j). No diagnostic of
any kind is emitted: the children-count assert at line 254 is commented
out, and the children write targets entries[j], which equals end on the
final iteration. -/
def postLoop : Nat → BuildState → Nat → Nat → BuildState
  | 0, s, _, _ => { s with outOfFuel := true }
  | fuel + 1, s, end_, i =>
    if i < end_ then
      let offset := u32sub (compCount s i) 2
      let r := postScan i offset (end_ - (i + 1)) s (i + 1)
      let s1 := r.1
      let j := r.2
      let s2 := if i + 1 < j then
          postLoop fuel
            (setE s1 (i + 1)
              (fun e => { e with depth := some (u32sub (compCount s1 i) 1), nChildren := 0 }))
            j (i + 1)
        else s1
      let s3 := setE s2 j (fun e => { e with children := [] })
      let s4 := postFill offset j (j - i) s3 i
      postLoop fuel s4 end_ j
    else s

/-- duvis.c build_tree_postorder (lines 212-256): write depth and a zero
n_children into entries[start], then run the loop over [start, end). -/
def buildPost (fuel : Nat) (s : BuildState) (start end_ depth : Nat) : BuildState :=
  postLoop fuel (setE s start (fun e => { e with depth := some depth, nChildren := 0 })) end_ start

/-- Fatal builder diagnostics: the exit(1) calls of build_tree_preorder
and the live asserts, plus the model fuel marker. -/
inductive BErr where
  | unexpectedEntry (idx : Nat)
  | missingEntry (idx : Nat)
  | assertChildren
  | assertV0Children
  | fuelOut
deriving DecidableEq

/-- Pass 1 of build_tree_preorder (duvis.c lines 273-276): count the
records in (start, end) whose component count is exactly offset + 1. The
first Nat argument counts the slots left before end, so it is end - i. -/
def countKids (s : BuildState) (offset : Nat) : Nat → Nat → Nat
  | 0, _ => 0
  | rem + 1, i => (if compCount s i = offset + 1 then 1 else 0) + countKids s offset rem (i + 1)

/-- Subtree walk of pass 2 of build_tree_preorder (duvis.c lines 293-298):
advance j while entries[j] is strictly deeper than a direct child and its
offset component matches that of entries[i]. The first Nat argument counts
the slots left before end, so it is end - j. -/
def walkPre (s : BuildState) (i offset : Nat) : Nat → Nat → Nat
  | 0, j => j
  | rem + 1, j =>
    if offset + 1 < compCount s j ∧ strcmpB (compAt s i offset) (compAt s j offset) = 0 then
      walkPre s i offset rem (j + 1)
    else j

/-- Pass 2 and pass 3 of build_tree_preorder (duvis.c lines 283-307): each
range boundary must hold exactly offset + 1 components or the fatal
missing-entry error cites its 1-based index; the boundary becomes a direct
child at depth + 1 and its subtree range is rebuilt recursively (the
recursive build_tree_preorder call over [i, j) at depth + 1 is inlined:
its unexpected-entry check, its depth write, its pass 1 and its re-entry
into this pass). When the range is exhausted the children assert is
checked and the children are sorted with compare_subtrees. -/
def attachPre : Nat → Nat → BuildState → Nat → Nat → Nat → Nat → Nat → Except BErr BuildState
  | 0, _, _, _, _, _, _, _ => .error .fuelOut
  | fuel + 1, bd, s, start, end_, depth, offset, i =>
    if i < end_ then
      if compCount s i ≠ offset + 1 then .error (.missingEntry (i + 1))
      else
        let s1 := setE s start (fun e => { e with children := e.children ++ [i] })
        let s2 := setE s1 i (fun e => { e with depth := some (depth + 1) })
        let j := walkPre s2 i offset (end_ - (i + 1)) (i + 1)
        match (if i + 1 < j then
            (if compCount s2 i ≠ (depth + 1) + bd then .error (.unexpectedEntry (i + 1))
             else
               let t1 := setE s2 i (fun e => { e with depth := some (depth + 1) })
               let n := countKids t1 ((depth + 1) + bd) (j - (i + 1)) (i + 1)
               let t2 := setE t1 i
                 (fun e => { e with nChildren := e.nChildren + n, children := [] })
               attachPre fuel bd t2 i j (depth + 1) ((depth + 1) + bd) (i + 1))
          else .ok s2) with
        | .error e => .error e
        | .ok s3 => attachPre fuel bd s3 start end_ depth offset j
    else
      let e := getE s start
      if e.children.length ≠ e.nChildren then .error .assertChildren
      else .ok (setE s start (fun e2 => { e2 with children := sortBy (subtreeLe bd s) e2.children }))

/-- build_tree_preorder (duvis.c lines 262-308, identical in the older
revision). offset is depth + base_depth; a start record whose component
count differs is the fatal unexpected-entry error citing start + 1; then
the start entry gets its depth, pass 1 counts its direct children, and
pass 2 takes over from start + 1. -/
def buildPre (fuel bd : Nat) (s : BuildState) (start end_ depth : Nat) : Except BErr BuildState :=
  let offset := depth + bd
  if compCount s start ≠ offset then .error (.unexpectedEntry (start + 1))
  else
    let s1 := setE s start (fun e => { e with depth := some depth })
    let n := countKids s1 offset (end_ - (start + 1)) (start + 1)
    let s2 := setE s1 start (fun e => { e with nChildren := e.nChildren + n, children := [] })
    attachPre fuel bd s2 start end_ depth offset (start + 1)

/-- Inner scan of the older revision's build_tree_postorder (part_000
lines 248-254): offset - 1 wraps in uint32, and strcmp is used as a truth
value, so the scan continues while the compared components differ. The
first Nat argument counts the slots left before end, so it is end - j. -/
def postScanV0 (i offset : Nat) : Nat → BuildState → Nat → BuildState × Nat
  | 0, s, j => (s, j)
  | rem + 1, s, j =>
    if compCount s j < u32sub offset 1 ∧ strcmpB (compAt s i offset) (compAt s j offset) ≠ 0 then
      postScanV0 i offset rem (setE s j (fun e => { e with nChildren := e.nChildren + 1 })) (j + 1)
    else (s, j)

/-- Fill loop of the older revision's build_tree_postorder (part_000 lines
261-264): k runs from j - 1 down to i + 1, appending entries whose
component count equals offset + 1 in uint32 arithmetic, and also counting
them for the live assert. The first Nat argument counts the slots left,
so it is k - i. -/
def postFillV0 (offset i j : Nat) : Nat → BuildState → Nat → Nat → BuildState × Nat
  | 0, s, _, n => (s, n)
  | rem + 1, s, k, n =>
    let cond := compCount s k = (offset + 1) % U32
    let s' := if cond then setE s j (fun e => { e with children := e.children ++ [k] }) else s
    postFillV0 offset i j rem s' (k - 1) (if cond then n + 1 else n)

/-- Outer while loop of the older revision's build_tree_postorder
(part_000 lines 240-269): entries[j] gets its depth and n_children written
before any j < end bound is checked, offset is entries[i].n_components - 1
in uint32 arithmetic, a found subtree is rebuilt recursively over [i, j)
at depth entries[j].n_components - 1 (the recursive call is inlined: it
writes the depth of its start entry and re-enters this loop), and the live
assert compares the filled count against the stored n_children. -/
def postLoopV0 : Nat → BuildState → Nat → Nat → Nat → Except BErr BuildState
  | 0, _, _, _, _ => .error .fuelOut
  | fuel + 1, s, end_, depth, i =>
    if i < end_ then
      let s1 := setE s (i + 1)
        (fun e => { e with depth := some (u32sub depth 1), nChildren := 0 })
      let offset := u32sub (compCount s1 i) 1
      let r := postScanV0 i offset (end_ - (i + 1)) s1 (i + 1)
      let s2 := r.1
      let j := r.2
      match (if i + 1 < j then
          postLoopV0 fuel
            (setE s2 i (fun e => { e with depth := some (u32sub (compCount s2 j) 1) }))
            j (u32sub (compCount s2 j) 1) i
        else .ok s2) with
      | .error e => .error e
      | .ok s3 =>
        let s4 := setE s3 j (fun e => { e with children := [] })
        let r2 := postFillV0 offset i j (j - 1 - i) s4 (j - 1) 0
        if r2.2 ≠ (getE r2.1 j).nChildren then .error .assertV0Children
        else postLoopV0 fuel r2.1 end_ depth j
    else .ok s

/-- The older revision's build_tree_postorder (part_000 lines 229-270):
write the depth of entries[start], then run the loop over [start, end). -/
def buildPostV0 (fuel : Nat) (s : BuildState) (start end_ depth : Nat) : Except BErr BuildState :=
  postLoopV0 fuel (setE s start (fun e => { e with depth := some depth })) end_ depth start

/-- Top-level fatal outcomes of one run. -/
inductive TopErr where
  | parse (e : PErr)
  | emptyRoot
  | build (e : BErr)
deriving DecidableEq

/-- The parsed records become the global entries array: depth
uninitialised, no children, sizes and components as parsed. -/
def initState (recs : List EntryRec) : BuildState :=
  ⟨recs.map (fun r => { size := r.size, components := r.components }), false, false⟩

/-- Recursion budget handed to a builder; large enough for every
terminating run on n entries. -/
def fuelFor (n : Nat) : Nat := 3 * n + 4

/-- duvis.c main, pre-order path (pflag set, lines 456-481): read the
entries, return successfully when there are none, sort with
compare_entries, reject a zero-component first entry as the fatal
empty-root error, take base_depth from the first entry and build from
index 0 over the whole array at depth 0. -/
def prePipeline (lines : List (List Nat)) : Except TopErr (Option (Nat × BuildState)) :=
  match readV1 lines with
  | .error e => .error (.parse e)
  | .ok (_, recs) =>
    if recs.length = 0 then .ok none
    else
      let sorted := sortBy entriesLe recs
      if (sorted.headD default).components.length = 0 then .error .emptyRoot
      else
        let bd := (sorted.headD default).components.length
        match buildPre (fuelFor recs.length) bd (initState sorted) 0 sorted.length 0 with
        | .error e => .error (.build e)
        | .ok s => .ok (some (bd, s))

/-- duvis.c main, post-order path (default, lines 456-461 and 482-487):
read the entries, return successfully when there are none, take base_depth
from the last entry (the root) and build over [0, n_entries) at depth 0. -/
def postPipeline (lines : List (List Nat)) : Except TopErr (Option (Nat × BuildState)) :=
  match readV1 lines with
  | .error e => .error (.parse e)
  | .ok (_, recs) =>
    if recs.length = 0 then .ok none
    else
      let bd := (recs.getLastD default).components.length
      .ok (some (bd, buildPost (fuelFor recs.length) (initState recs) 0 recs.length 0))

/-- part_000 main (lines 509-587): same empty-input early return; the
post-order default builds over [0, n_entries - 1) at initial depth
entries[0].n_components - 1 with base_depth from the last entry; the
pre-order path matches the duvis.c one. -/
def v0Pipeline (pflag : Bool) (stream : List Nat) : Except TopErr (Option (Nat × BuildState)) :=
  match readV0 stream with
  | .error e => .error (.parse e)
  | .ok recs =>
    if recs.length = 0 then .ok none
    else if pflag then
      let sorted := sortBy entriesLe recs
      if (sorted.headD default).components.length = 0 then .error .emptyRoot
      else
        let bd := (sorted.headD default).components.length
        match buildPre (fuelFor recs.length) bd (initState sorted) 0 sorted.length 0 with
        | .error e => .error (.build e)
        | .ok s => .ok (some (bd, s))
    else
      let bd := (recs.getLastD default).components.length
      match buildPostV0 (fuelFor recs.length) (initState recs) 0 (recs.length - 1)
          (u32sub (recs.headD default).components.length 1) with
      | .error e => .error (.build e)
      | .ok s => .ok (some (bd, s))

/-- Byte values of a string, for readable concrete inputs. -/
def bytes (s : String) : List Nat := s.data.map Char.toNat

/-- Final array of a pipeline run, when the run returned one. -/
def pipeState : Except TopErr (Option (Nat × BuildState)) → Option BuildState
  | .ok (some (_, s)) => some s
  | _ => none

/-- The run finished without any fatal diagnostic: the pipeline returned
normally and the builder never exhausted the model recursion budget. -/
def ranClean (r : Except TopErr (Option (Nat × BuildState))) : Bool :=
  match r with
  | .ok (some (_, s)) => !s.outOfFuel
  | .ok none => true
  | .error _ => false

/-- Label of a node as the spec uses it: the last path component. -/
def labelOf (e : NodeEntry) : List Nat := e.components.getLastD []

/-- The (label, size, depth) data of every entry of a finished run, in
array order; depth stays none when the builder never wrote it. -/
def triplesOf (r : Except TopErr (Option (Nat × BuildState))) :
    Option (List (List Nat × Nat × Option Nat)) :=
  (pipeState r).map (fun s => s.entries.map (fun e => (labelOf e, e.size, e.depth)))

/-- Children index list of entry i of a finished run. -/
def childrenAt (r : Except TopErr (Option (Nat × BuildState))) (i : Nat) : Option (List Nat) :=
  (pipeState r).map (fun s => (getE s i).children)

/-- Depth field of entry i of a finished run. -/
def depthAt (r : Except TopErr (Option (Nat × BuildState))) (i : Nat) : Option (Option Nat) :=
  (pipeState r).map (fun s => (getE s i).depth)

/-- Structural contract of the spec: every child's component sequence,
shortened by its last element, equals its parent's full sequence. -/
def parentContract (s : BuildState) : Bool :=
  s.entries.all (fun e =>
    e.children.all (fun c => (getE s c).components.dropLast == e.components))

def parentContractOf (r : Except TopErr (Option (Nat × BuildState))) : Option Bool :=
  (pipeState r).map parentContract

/-- Claimed ordering of two siblings listed a before b: a has the strictly
larger 64-bit size, or the sizes are equal and a's last component is
lexicographically below b's. -/
def sibPairOK (s : BuildState) (a b : Nat) : Bool :=
  decide ((getE s b).size < (getE s a).size) ||
    ((getE s a).size == (getE s b).size &&
      decide (strcmpB (labelOf (getE s a)) (labelOf (getE s b)) < 0))

/-- All ordered pairs of a list satisfy f. -/
def allPairs (f : Nat → Nat → Bool) : List Nat → Bool
  | [] => true
  | a :: rest => rest.all (f a) && allPairs f rest

/-- Claimed sibling ordering over every children list of the array. -/
def siblingOrdered (s : BuildState) : Bool :=
  s.entries.all (fun e => allPairs (sibPairOK s) e.children)

def siblingOrderedOf (r : Except TopErr (Option (Nat × BuildState))) : Option Bool :=
  (pipeState r).map siblingOrdered

/-- Modelled from the spec (section 4.2), for comparison with
compare_entries: order two component sequences by the first nonzero
byte-wise string comparison; when every compared component ties, the
shorter sequence comes first; two identical sequences are the fatal
duplicate-path case, modelled as none. -/
def specLexOrder : List (List Nat) → List (List Nat) → Option Ordering
  | [], [] => none
  | [], _ :: _ => some .lt
  | _ :: _, [] => some .gt
  | c :: cs, d :: ds =>
    let q := strcmpB c d
    if q < 0 then some .lt else if 0 < q then some .gt else specLexOrder cs ds

/-- Sign of a C comparator result. -/
def intSign (q : Int) : Ordering := if q < 0 then .lt else if 0 < q then .gt else .eq

/-- Format-error test of the parser (duvis.c line 89), as a predicate on a
line: the leading digit run is empty, or the byte after it is neither
space nor tab. -/
def badFormat (l : List Nat) : Bool :=
  let ds := l.takeWhile isDigitB
  decide (ds = [] ∨ ¬ ((l.drop ds.length).head? = some 32 ∨ (l.drop ds.length).head? = some 9))

/-- Success test for an Except value. -/
def isOkE : Except ε α → Bool
  | .ok _ => true
  | .error _ => false

/-- A line that fits the buffer and parses into a record. -/
def goodLine (l : List Nat) : Bool :=
  decide (l.length ≤ duBufferLength - 2) && isOkE (parseLine l 0)

/-- Records returned by duvis.c read_entries, empty on a fatal error. -/
def recordsV1 (lines : List (List Nat)) : List EntryRec :=
  match readV1 lines with
  | .ok p => p.2
  | .error _ => []

/-- Sizes of the records of an older-revision parse, when it succeeded. -/
def v0Sizes (r : Except PErr (List EntryRec)) : Option (List Nat) :=
  match r with
  | .ok recs => some (recs.map (fun e => e.size))
  | .error _ => none

/-- Component counts of the records of an older-revision parse. -/
def v0CompLens (r : Except PErr (List EntryRec)) : Option (List Nat) :=
  match r with
  | .ok recs => some (recs.map (fun e => e.components.length))
  | .error _ => none

/-- Scenario A records in depth-first post-order, as du emits them. -/
def linesA : List (List Nat) := [bytes ("40 a/x"), bytes ("60 a/y"), bytes ("100 a")]

/-- Sizes that differ only above bit 31: the parent holds 2^32 + 1, one
child 2^32, the other child 1. -/
def linesC2 : List (List Nat) :=
  [bytes ("4294967297 a"), bytes ("4294967296 a/b"), bytes ("1 a/c")]

/-- A malformed post-order input: the record before the root does not
extend the root path at all. -/
def linesC4 : List (List Nat) := [bytes ("5 a/b"), bytes ("10 x")]

/-- One input line of 4119 content bytes, beyond the line buffer: the
size field, 4114 path bytes, then the three bytes of a second well-formed
line prefix that the split leaves behind. -/
def lineC5 : List Nat := bytes ("1 ") ++ List.replicate 4114 97 ++ bytes ("9 b")

/-- The over-long line as a newline-terminated input stream. -/
def streamC5 : List Nat := lineC5 ++ [10]

/-- A lone record with three components and no ancestor records. -/
def linesC6lone : List (List Nat) := [bytes ("10 a/b/c")]

/-- A root record plus a record two levels deeper with no intermediate. -/
def linesC6gap : List (List Nat) := [bytes ("10 a"), bytes ("5 a/b/c")]

/-- Concrete two-entry state exercising the attach pass directly: the
root has one component, the second record three. -/
def stateC6 : BuildState := initState [⟨10, [[97]]⟩, ⟨5, [[97], [98], [99]]⟩]

theorem splitSlash_ne_nil (l : List Nat) : splitSlash l ≠ [] := by
  cases l with
  | nil => simp [splitSlash]
  | cons b rest =>
    simp only [splitSlash]
    split
    · simp
    · split <;> simp

theorem parseLine_error_cases (buf : List Nat) (ln : Nat) (e : PErr)
    (h : parseLine buf ln = .error e) :
    e = .formatError ln ∨ e = .assertComponentsMax ln := by
  unfold parseLine at h
  dsimp only at h
  split at h
  · exact Or.inl (by injection h with h2; exact h2.symm)
  · split at h
    · exact Or.inr (by injection h with h2; exact h2.symm)
    · exact absurd h (by simp)

theorem parseLine_ok_components (buf : List Nat) (ln : Nat) (e : EntryRec)
    (h : parseLine buf ln = .ok e) : e.components ≠ [] := by
  unfold parseLine at h
  dsimp only at h
  split at h
  · exact absurd h (by simp)
  · split at h
    · exact absurd h (by simp)
    · injection h with h2
      rw [← h2]
      exact splitSlash_ne_nil _

theorem takeLine_chunk_le (k : Nat) (s : List Nat) : (takeLine k s).1.length ≤ k := by
  induction k generalizing s with
  | zero => simp [takeLine]
  | succ k ih =>
    cases s with
    | nil => simp [takeLine]
    | cons b t =>
      by_cases hb : b = 10 <;> simp [takeLine, hb]
      exact ih t

theorem bufferLastCell_zero (chunk : List Nat) (h : chunk.length ≤ duBufferLength - 1) :
    bufferLastCell chunk = 0 := by
  unfold bufferLastCell
  rw [dif_neg]
  omega

theorem pathGet_fits (l : List Nat) (h : l.length ≤ duBufferLength - 2) :
    pathGet l = (false, l) := by
  unfold pathGet
  rw [if_neg]
  omega

/-- Claim C10: on the empty input stream both program variants, in both
pre-order and post-order mode, terminate successfully after parsing,
producing zero records, building no tree and reporting no error. -/
theorem c10_empty_input_ok :
    prePipeline [] = .ok none ∧ postPipeline [] = .ok none ∧
    v0Pipeline true [] = .ok none ∧ v0Pipeline false [] = .ok none := by
  decide

/-- Claim C1 (code divergence): on the Scenario A filesystem tree, fed to
the post-order builder in du post-order and to the pre-order pipeline for
sorting, the two builders do not produce the same (label, size, depth)
multiset: the post-order builder of duvis.c assigns depth 0 to the first
record only, leaving the depth of the root (the last record) and of every
other record unwritten, while the pre-order builder assigns the root depth
0 and its children depth 1. -/
theorem c1_depth_agreement_fails :
    triplesOf (postPipeline linesA) =
      some [([120], 40, some 0), ([121], 60, none), ([97], 100, none)] ∧
    triplesOf (prePipeline linesA) =
      some [([97], 100, some 0), ([120], 40, some 1), ([121], 60, some 1)] ∧
    ¬ List.Perm
      [(([120] : List Nat), (40 : Nat), (some 0 : Option Nat)),
        ([121], 60, none), ([97], 100, none)]
      [([97], 100, some 0), ([120], 40, some 1), ([121], 60, some 1)] ∧
    depthAt (postPipeline linesA) 2 ≠ some (some 0) := by
  decide

/-- Claim C2 (code divergence): compare_subtrees truncates the 64-bit
sizes to their low 32 bits, so on sizes 2^32 and 1 under a parent of size
2^32 + 1 the pre-order pipeline sorts the size-2^32 child after the
size-1 child, and the finished tree violates the claimed sibling order. -/
theorem c2_sibling_order_fails :
    ranClean (prePipeline linesC2) = true ∧
    childrenAt (prePipeline linesC2) 0 = some [2, 1] ∧
    (pipeState (prePipeline linesC2)).map (fun s => ((getE s 2).size, (getE s 1).size)) =
      some (1, 4294967296) ∧
    siblingOrderedOf (prePipeline linesC2) = some false := by
  decide

/-- Claim C3 (code divergence): on the Scenario A post-order input the
post-order builder completes without any fatal diagnostic yet links record
0 (path a/x) as the child of record 1 (path a/y), whose components are not
the parent sequence of a/x, so the claimed structural contract fails on a
run that reported no error. -/
theorem c3_parent_contract_fails :
    ranClean (postPipeline linesA) = true ∧
    childrenAt (postPipeline linesA) 1 = some [0] ∧
    parentContractOf (postPipeline linesA) = some false := by
  decide

/-- Claim C4 (code divergence): the post-order input whose non-root record
a/b does not extend the root path x at all completes the build with no
fatal diagnostic of any kind: duvis.c build_tree_postorder contains no
malformed-hierarchy check (its children assert is commented out), and it
even links a/b under x. -/
theorem c4_no_malformed_hierarchy_error :
    ranClean (postPipeline linesC4) = true ∧
    childrenAt (postPipeline linesC4) 1 = some [0] := by
  decide

/-- Claim C6, counterexample to the quoted Scenario D: the sorted input
consisting only of the record 10 a/b/c, with no a or a/b records, builds
successfully: the lexicographically first record becomes the root whatever
its component count, base_depth is taken from it, and the tree is the
single root with label c, size 10, depth 0 and no missing-entry error. -/
theorem c6_lone_deep_record_builds :
    ranClean (prePipeline linesC6lone) = true ∧
    triplesOf (prePipeline linesC6lone) = some [([99], 10, some 0)] := by
  decide

/-- Claim C6 (amended): in the attach pass of build_tree_preorder, every
record met at a direct-child boundary whose component count is not the
parent offset plus one is the fatal missing-entry error citing that
record's 1-based index; below the root the error is reachable, e.g. the
input 10 a with 5 a/b/c fails citing index 2. -/
theorem c6_attach_missing_entry :
    (∀ (fuel bd : Nat) (s : BuildState) (start end_ depth offset i : Nat),
      i < end_ → compCount s i ≠ offset + 1 →
      attachPre (fuel + 1) bd s start end_ depth offset i = .error (.missingEntry (i + 1))) ∧
    prePipeline linesC6gap = .error (.build (.missingEntry 2)) := by
  constructor
  · intro fuel bd s start end_ depth offset i h1 h2
    unfold attachPre
    rw [if_pos h1, if_pos h2]
  · decide

/-- Witness for c6_attach_missing_entry: the root a with one component and
the record a/b/c with three components, at boundary index 1 with parent
offset 1, yield the missing-entry error citing index 2. -/
theorem c6_attach_missing_entry_witness :
    attachPre 1 1 stateC6 0 2 0 1 1 = .error (.missingEntry 2) :=
  c6_attach_missing_entry.1 0 1 stateC6 0 2 0 1 1 (by decide) (by decide)

theorem readV0Go_no_overrun (fuel : Nat) :
    ∀ stream ln acc n, readV0Go fuel stream ln acc ≠ .error (.overrun n) := by
  induction fuel with
  | zero =>
    intro stream ln acc n h
    exact absurd h (by simp [readV0Go])
  | succ fuel ih =>
    intro stream ln acc n h
    unfold readV0Go at h
    split at h
    · exact absurd h (by simp)
    · rw [if_neg (by
        simp [bufferLastCell_zero _ (le_trans (takeLine_chunk_le _ _) (le_refl _))])] at h
      split at h
      next e heq =>
        injection h with h2
        rcases parseLine_error_cases _ _ _ heq with h3 | h3 <;> rw [h3] at h2 <;> cases h2
      next entry heq => exact ih _ _ _ _ h

theorem readV1Go_no_overrun (lines : List (List Nat)) :
    ∀ ln w acc n, readV1Go lines ln w acc ≠ .error (.overrun n) := by
  induction lines with
  | nil =>
    intro ln w acc n h
    exact absurd h (by simp [readV1Go])
  | cons l rest ih =>
    intro ln w acc n h
    unfold readV1Go at h
    dsimp only at h
    split at h
    next e heq =>
      injection h with h2
      rcases parseLine_error_cases _ _ _ heq with h3 | h3 <;> rw [h3] at h2 <;> cases h2
    next entry heq => exact ih _ _ _ _ h

/-- Claim C5 (code divergence): neither variant's parser can ever fail
with the buffer-overrun diagnostic, for any input whatsoever. In the older
revision the sentinel check is dead code, because fgets stores at most
du_buffer_length - 1 bytes in the chunk and the last buffer cell is
therefore always the NUL the check compares against; in duvis.c the
overrun report of line 51 is printed without exiting, so read_entries
never returns that error either. An over-long line is thus never a fatal
error: the older revision splits it into several records and duvis.c
parses its truncated content into a record. -/
theorem c5_overrun_error_unreachable :
    (∀ fuel stream ln acc n, readV0Go fuel stream ln acc ≠ .error (.overrun n)) ∧
    (∀ lines ln w acc n, readV1Go lines ln w acc ≠ .error (.overrun n)) ∧
    (∀ stream n, readV0 stream ≠ .error (.overrun n)) ∧
    (∀ lines n, readV1 lines ≠ .error (.overrun n)) :=
  ⟨fun fuel => readV0Go_no_overrun fuel,
   fun lines => readV1Go_no_overrun lines,
   fun stream => readV0Go_no_overrun _ stream 0 [],
   fun lines => readV1Go_no_overrun lines 0 [] []⟩

theorem insertBy_perm (le : α → α → Bool) (a : α) (l : List α) :
    List.Perm (insertBy le a l) (a :: l) := by
  induction l with
  | nil => exact List.Perm.refl _
  | cons b t ih =>
    simp only [insertBy]
    split
    · exact List.Perm.refl _
    · exact (ih.cons b).trans (List.Perm.swap a b t)

theorem sortBy_perm (le : α → α → Bool) (l : List α) : List.Perm (sortBy le l) l := by
  induction l with
  | nil => exact List.Perm.refl _
  | cons a t ih => exact (insertBy_perm le a (sortBy le t)).trans (ih.cons a)

theorem readV1Go_ok_components (lines : List (List Nat)) :
    ∀ ln w acc, (∀ r ∈ acc, r.components ≠ []) →
    ∀ w2 recs, readV1Go lines ln w acc = .ok (w2, recs) →
    ∀ r ∈ recs, r.components ≠ [] := by
  induction lines with
  | nil =>
    intro ln w acc hacc w2 recs h r hr
    unfold readV1Go at h
    injection h with h2
    injection h2 with h3 h4
    rw [← h4] at hr
    exact hacc r hr
  | cons l rest ih =>
    intro ln w acc hacc w2 recs h r hr
    unfold readV1Go at h
    dsimp only at h
    split at h
    next e heq => exact absurd h (by simp)
    next entry heq =>
      refine ih _ _ _ ?_ _ _ h r hr
      intro r2 hr2
      rcases List.mem_append.mp hr2 with h1 | h2
      · exact hacc r2 h1
      · rw [List.mem_singleton.mp h2]
        exact parseLine_ok_components _ _ _ heq

theorem prePipeline_no_empty_root :
    ∀ lines, prePipeline lines ≠ .error .emptyRoot := by
  intro lines h
  unfold prePipeline at h
  split at h
  next e heq => exact absurd h (by simp)
  next w recs heq =>
    split at h
    · exact absurd h (by simp)
    next hlen =>
      dsimp only at h
      split at h
      next hzero =>
        have hne : recs ≠ [] := by
          intro hnil
          rw [hnil] at hlen
          exact hlen rfl
        have hsne : sortBy entriesLe recs ≠ [] := by
          intro hnil
          have := (sortBy_perm entriesLe recs).length_eq
          rw [hnil] at this
          exact hne (List.length_eq_zero.mp this.symm)
        rcases hd : sortBy entriesLe recs with _ | ⟨a, t⟩
        · exact hsne hd
        · have hmem : a ∈ sortBy entriesLe recs := by
            rw [hd]; exact List.mem_cons_self a t
          have hmem2 : a ∈ recs := (sortBy_perm entriesLe recs).mem_iff.mp hmem
          have hcomp : a.components ≠ [] :=
            readV1Go_ok_components lines 0 [] [] (by intro r hr; cases hr) w recs heq a hmem2
          rw [hd] at hzero
          simp only [List.headD_cons] at hzero
          exact hcomp (List.length_eq_zero.mp hzero)
      next =>
        split at h
        next e2 heq2 => injection h with h2; cases h2
        next s2 heq2 => exact absurd h (by simp)

theorem ceLoop_sign (c1 c2 : List (List Nat)) :
    ∀ rem i, rem + i = min c1.length c2.length → i ≤ c1.length → i ≤ c2.length →
    (ceLoop c1 c2 rem i).map intSign = specLexOrder (c1.drop i) (c2.drop i) := by
  intro rem
  induction rem with
  | zero =>
    intro i hmin h1 h2
    simp only [ceLoop]
    by_cases hlen : c1.length = c2.length
    · rw [if_neg (by omega)]
      rw [List.drop_eq_nil_of_le (by omega : c1.length ≤ i),
        List.drop_eq_nil_of_le (by omega : c2.length ≤ i)]
      rfl
    · rw [if_pos hlen]
      rcases Nat.lt_or_ge c1.length c2.length with hlt | hge
      · rw [List.drop_eq_nil_of_le (by omega : c1.length ≤ i),
          List.drop_eq_getElem_cons (by omega : i < c2.length)]
        simp only [Option.map_some', specLexOrder, intSign]
        rw [if_pos (by omega : (c1.length : Int) - c2.length < 0)]
      · rw [List.drop_eq_nil_of_le (by omega : c2.length ≤ i),
          List.drop_eq_getElem_cons (by omega : i < c1.length)]
        simp only [Option.map_some', specLexOrder, intSign]
        rw [if_neg (by omega : ¬ (c1.length : Int) - c2.length < 0),
          if_pos (by omega : (0 : Int) < (c1.length : Int) - c2.length)]
  | succ rem ih =>
    intro i hmin h1 h2
    have hi1 : i < c1.length := by omega
    have hi2 : i < c2.length := by omega
    have hg1 : c1.getD i [] = c1[i] := by
      rw [List.getD_eq_getElem?_getD, List.getElem?_eq_getElem hi1]
      rfl
    have hg2 : c2.getD i [] = c2[i] := by
      rw [List.getD_eq_getElem?_getD, List.getElem?_eq_getElem hi2]
      rfl
    simp only [ceLoop, hg1, hg2]
    rw [List.drop_eq_getElem_cons hi1, List.drop_eq_getElem_cons hi2]
    simp only [specLexOrder]
    rcases lt_trichotomy (strcmpB c1[i] c2[i]) 0 with hq | hq | hq
    · rw [if_pos (by omega), if_pos hq]
      simp only [Option.map_some', intSign]
      rw [if_pos hq]
    · rw [hq]
      rw [if_neg (by simp), if_neg (by omega), if_neg (by omega)]
      exact ih (i + 1) (by omega) (by omega) (by omega)
    · rw [if_pos (by omega), if_neg (by omega), if_pos hq]
      simp only [Option.map_some', intSign]
      rw [if_neg (by omega), if_pos hq]

theorem specLexOrder_ne_eq (a : List (List Nat)) : ∀ b, specLexOrder a b ≠ some .eq := by
  induction a with
  | nil => intro b; cases b <;> simp [specLexOrder]
  | cons c cs ih =>
    intro b
    cases b with
    | nil => simp [specLexOrder]
    | cons d ds =>
      simp only [specLexOrder]
      split
      · simp
      · split
        · simp
        · exact ih ds

/-- Claim C7: compare_entries agrees in sign with the spec's lexicographic
order on component sequences (first nonzero byte-wise comparison decides;
a strict leading subsequence sorts first; two identical sequences are the
fatal duplicate-path abort, not an equal result), and it never returns the
comparison value zero. -/
theorem c7_compare_entries_agrees : ∀ e1 e2 : EntryRec,
    (compareEntries e1 e2).map intSign = specLexOrder e1.components e2.components ∧
    compareEntries e1 e2 ≠ some 0 := by
  intro e1 e2
  have hb : (compareEntries e1 e2).map intSign = specLexOrder e1.components e2.components := by
    have h := ceLoop_sign e1.components e2.components
      (min e1.components.length e2.components.length) 0 (by omega)
      (Nat.zero_le _) (Nat.zero_le _)
    simpa [compareEntries] using h
  refine ⟨hb, fun hzero => ?_⟩
  rw [hzero] at hb
  refine specLexOrder_ne_eq e1.components e2.components ?_
  rw [← hb]
  rfl

theorem badFormat_parse (l : List Nat) (ln : Nat) (h : badFormat l = true) :
    parseLine l ln = .error (.formatError ln) := by
  unfold badFormat at h
  unfold parseLine
  dsimp only at h ⊢
  rw [if_pos (of_decide_eq_true h)]

theorem parseLine_isOk_any (l : List Nat) (ln ln' : Nat) :
    isOkE (parseLine l ln) = isOkE (parseLine l ln') := by
  unfold parseLine
  dsimp only
  split
  · rfl
  · split <;> rfl

theorem parseLine_ok_shape (l : List Nat) (ln : Nat) (h : isOkE (parseLine l ln) = true) :
    ∃ e, parseLine l ln = .ok e := by
  rcases hp : parseLine l ln with e | e
  · rw [hp] at h
    exact absurd h (by simp [isOkE])
  · exact ⟨e, rfl⟩

theorem readV1Go_good_then_bad (b : List Nat) (rest : List (List Nat))
    (hb : badFormat b = true) (hlen : b.length ≤ duBufferLength - 2) :
    ∀ gs ln w acc, (∀ g ∈ gs, goodLine g = true) →
    readV1Go (gs ++ b :: rest) ln w acc = .error (.formatError (ln + gs.length + 1)) := by
  intro gs
  induction gs with
  | nil =>
    intro ln w acc _
    simp only [List.nil_append, readV1Go, pathGet_fits b hlen,
      badFormat_parse b (ln + 1) hb, List.length_nil, Nat.add_zero]
  | cons g gs ih =>
    intro ln w acc hgood
    have hg := hgood g (List.mem_cons_self g gs)
    unfold goodLine at hg
    rw [Bool.and_eq_true] at hg
    have hfit : g.length ≤ duBufferLength - 2 := of_decide_eq_true hg.1
    have hok : isOkE (parseLine g (ln + 1)) = true := by
      rw [parseLine_isOk_any g (ln + 1) 0]
      exact hg.2
    rcases parseLine_ok_shape g (ln + 1) hok with ⟨e, he⟩
    simp only [List.cons_append, readV1Go, pathGet_fits g hfit, he]
    rw [show (if false = true then w ++ [ln + 1] else w) = w from rfl]
    show readV1Go (gs ++ b :: rest) (ln + 1) w (acc ++ [e]) = _
    rw [ih (ln + 1) w (acc ++ [e]) (fun g2 hg2 => hgood g2 (List.mem_cons_of_mem g hg2))]
    have harith : ln + 1 + gs.length + 1 = ln + (g :: gs).length + 1 := by
      simp only [List.length_cons]
      omega
    rw [harith]

/-- Claim C8: a line whose leading digit run is empty, or whose digit run
is not followed by a space or tab byte, preceded by any number of
well-formed lines, makes duvis.c read_entries fail with the fatal format
error carrying that line's 1-based number, and no record list is
returned. -/
theorem c8_format_error_fatal (gs : List (List Nat)) (b : List Nat) (rest : List (List Nat))
    (h1 : ∀ g ∈ gs, goodLine g = true) (h2 : badFormat b = true)
    (h3 : b.length ≤ duBufferLength - 2) :
    readV1 (gs ++ b :: rest) = .error (.formatError (gs.length + 1)) := by
  unfold readV1
  have := readV1Go_good_then_bad b rest h2 h3 gs 0 [] [] h1
  simpa using this

/-- Witness for c8_format_error_fatal: the single input line abc /x is
rejected with the format error at line 1, exactly the spec's Scenario C. -/
theorem c8_format_error_fatal_witness :
    readV1 [bytes ("abc /x")] = .error (.formatError 1) := by
  have := c8_format_error_fatal [] (bytes ("abc /x")) []
    (by intro g hg; cases hg) (by decide) (by decide)
  simpa using this

theorem recordsV1_components_nonempty :
    ∀ lines, (recordsV1 lines).all (fun r => !r.components.isEmpty) = true := by
  intro lines
  unfold recordsV1
  split
  next p heq =>
    rw [List.all_eq_true]
    intro r hr
    have := readV1Go_ok_components lines 0 [] [] (by intro r2 hr2; cases hr2) p.1 p.2 heq r hr
    simpa [List.isEmpty_iff] using this
  next e heq => rfl

/-- Claim C9, counterexample: even the input crafted to give the
lexicographically first record an empty path, the line 10 followed by a
space and an empty path, does not reach the empty-root error: the empty
path parses as one empty component, so the root check passes and the
build succeeds with that record as the depth-0 root. -/
theorem c9_empty_path_input_builds :
    prePipeline [bytes ("10 ")] ≠ .error .emptyRoot ∧
    triplesOf (prePipeline [bytes ("10 ")]) = some [([], 10, some 0)] := by
  decide

/-- Claim C9 (amended): the empty-root check of duvis.c lines 473-476 is
unreachable defensive code: every record the parser returns has at least
one path component (an empty path parses as a single empty component), so
the lexicographically first record after sorting never has zero
components and no input whatsoever makes the pre-order pipeline fail with
the empty-root error. -/
theorem c9_empty_root_dead :
    (∀ lines, (recordsV1 lines).all (fun r => !r.components.isEmpty) = true) ∧
    (∀ lines, prePipeline lines ≠ .error .emptyRoot) :=
  ⟨recordsV1_components_nonempty, prePipeline_no_empty_root⟩

end Duvis
